import Mathlib

/-!
Shallow embedding of the parsing/mapping core of the Ankify plugin
(`src/main.ts`): the card parser `parseAnkiCards` (multi-line block, table
and fallback line-oriented branches) and the per-card field mapping plus
validation performed inside `addNotesToAnki`.

Strings are modelled as `List Char`.  JavaScript string primitives are
modelled faithfully:
* `isWS` is the character class of the JS `\s` regex class (which is also
  the set stripped by `String.prototype.trim`);
* `isDot` is the character class of the JS `.` regex atom (every character
  except line terminators);
* the regexes of the source are translated into explicit scanning functions
  whose leftmost-match / lazy-group / greedy-whitespace behaviour follows
  the JS regex semantics of the corresponding pattern.
-/

namespace Ankify

/-- JS `\s` (and `String.prototype.trim`) character class. -/
def isWS (c : Char) : Bool :=
  decide (c.toNat = 9 ∨ c.toNat = 10 ∨ c.toNat = 11 ∨ c.toNat = 12 ∨ c.toNat = 13 ∨
    c.toNat = 32 ∨ c.toNat = 160 ∨ c.toNat = 5760 ∨ (8192 ≤ c.toNat ∧ c.toNat ≤ 8202) ∨
    c.toNat = 8232 ∨ c.toNat = 8233 ∨ c.toNat = 8239 ∨ c.toNat = 8287 ∨
    c.toNat = 12288 ∨ c.toNat = 65279)

/-- JS regex `.` (without the `s` flag): any character except a line terminator. -/
def isDot (c : Char) : Bool :=
  decide (¬ (c.toNat = 10 ∨ c.toNat = 13 ∨ c.toNat = 8232 ∨ c.toNat = 8233))

/-- Drop trailing JS-whitespace. -/
def dropTrailWS (l : List Char) : List Char :=
  ((l.reverse).dropWhile isWS).reverse

/-- JS `String.prototype.trim`. -/
def trim (l : List Char) : List Char :=
  dropTrailWS (l.dropWhile isWS)

/-- Prepend a character to the first piece of a split result. -/
def consHead (c : Char) : List (List Char) → List (List Char)
  | [] => [[c]]
  | g :: gs => (c :: g) :: gs

/-- JS `str.split(sep)` for a one-character separator `sep`. -/
def splitCh (sep : Char) : List Char → List (List Char)
  | [] => [[]]
  | c :: rest => if c = sep then [] :: splitCh sep rest else consHead c (splitCh sep rest)

/-- Worker for `splitRuns`; the flag records whether we are inside a separator run. -/
def splitRunsF (p : Char → Bool) : Bool → List Char → List (List Char)
  | _, [] => [[]]
  | inSep, c :: rest =>
    if p c then
      if inSep then splitRunsF p true rest else [] :: splitRunsF p true rest
    else consHead c (splitRunsF p false rest)

/-- JS `str.split(re)` where `re` is `[class]+` for the class decided by `p`
(used for `split(/[\s,]+/)`). -/
def splitRuns (p : Char → Bool) (l : List Char) : List (List Char) :=
  splitRunsF p false l

/-- Worker for `splitWS2`; the flag records whether we are inside a separator run
(the remaining whitespace of the run is consumed without becoming content). -/
def splitWS2Go : Bool → List Char → List (List Char)
  | _, [] => [[]]
  | true, c :: rest =>
    if isWS c then splitWS2Go true rest else consHead c (splitWS2Go false rest)
  | false, c :: rest =>
    if isWS c && (match rest with | d :: _ => isWS d | [] => false) then
      [] :: splitWS2Go true rest
    else consHead c (splitWS2Go false rest)

/-- JS `str.split(/\s{2,}/)`: runs of two or more whitespace characters separate. -/
def splitWS2 (l : List Char) : List (List Char) :=
  splitWS2Go false l

/-- JS case-sensitive `str.startsWith(pat)` (also used for literal pattern pieces). -/
def startsWith : List Char → List Char → Bool
  | [], _ => true
  | _ :: _, [] => false
  | p :: ps, c :: cs => p = c && startsWith ps cs

/-- Worker for `splitTriColon`; a positive first argument consumes that many
characters of the matched separator before resuming the scan. -/
def splitTriGo : Nat → List Char → List (List Char)
  | _, [] => [[]]
  | k + 1, _ :: rest => splitTriGo k rest
  | 0, c :: rest =>
    if startsWith ":::".data (c :: rest) then [] :: splitTriGo 2 rest
    else consHead c (splitTriGo 0 rest)

/-- JS `str.split(":::")`. -/
def splitTriColon (l : List Char) : List (List Char) :=
  splitTriGo 0 l

/-- Index of the last newline in a list, if any. -/
def lastNlIdx : List Char → Option Nat
  | [] => none
  | c :: rest =>
    match lastNlIdx rest with
    | some j => some (j + 1)
    | none => if c = '\n' then some 0 else none

/-- After an initial `'\n'`, how many further characters the separator regex
`/\n\s*\n+/` consumes (greedy `\s*` backtracking so that `\n+` ends the match
at the last newline of the whitespace run), or `none` if it does not match here. -/
def nlSep (l : List Char) : Option Nat :=
  match lastNlIdx (l.takeWhile isWS) with
  | some j => some (j + 1)
  | none => none

/-- Worker for `blockSplit`; a positive first argument consumes that many
characters of the matched separator before resuming the scan. -/
def blockSplitGo : Nat → List Char → List (List Char)
  | _, [] => [[]]
  | k + 1, _ :: rest => blockSplitGo k rest
  | 0, c :: rest =>
    if c = '\n' then
      match nlSep rest with
      | some k => [] :: blockSplitGo k rest
      | none => consHead c (blockSplitGo 0 rest)
    else consHead c (blockSplitGo 0 rest)

/-- JS `text.split(/\n\s*\n+/)`. -/
def blockSplit (l : List Char) : List (List Char) :=
  blockSplitGo 0 l

/-- Case folding of one pattern character under the regex `i` flag: a lowercase
letter pattern also matches its uppercase form; other characters match exactly. -/
def ciMatchChar (p c : Char) : Bool :=
  c = p || (decide (97 ≤ p.toNat) && decide (p.toNat ≤ 122) && decide (c.toNat + 32 = p.toNat))

/-- Case-insensitive literal prefix match (regex `i` flag, lowercase pattern). -/
def startsCI : List Char → List Char → Bool
  | [], _ => true
  | _ :: _, [] => false
  | p :: ps, c :: cs => ciMatchChar p c && startsCI ps cs

/-- Does `pat` occur (case-sensitively) as a contiguous substring? -/
def hasSeq (pat : List Char) : List Char → Bool
  | [] => decide (pat = [])
  | c :: rest => startsWith pat (c :: rest) || hasSeq pat rest

/-- Does `pat` occur case-insensitively as a contiguous substring? -/
def hasSeqCI (pat : List Char) : List Char → Bool
  | [] => decide (pat = [])
  | c :: rest => startsCI pat (c :: rest) || hasSeqCI pat rest

/-- After `Q:` in `/Q:.*\nA:.*/i`: `.*` chars, then a newline, then `A:` (ci). -/
def mlFromQ : List Char → Bool
  | [] => false
  | c :: rest => if c = '\n' then startsCI "a:".data rest else isDot c && mlFromQ rest

/-- The multi-line format detection `/Q:.*\nA:.*(\nannotation:.*)?(\ntags:.*)?/i.test(text)`
(the optional groups never constrain an unanchored test). -/
def multiLineTest : List Char → Bool
  | [] => false
  | c :: rest => (startsCI "q:".data (c :: rest) && mlFromQ (rest.drop 1)) || multiLineTest rest

/-- A parsed flashcard (`AnkiCard` of the source; `annot` models `annotation`). -/
structure AnkiCard where
  question : List Char
  answer : List Char
  annot : Option (List Char)
  tags : Option (List (List Char))
deriving DecidableEq

/-- Tag text parsing shared by the multi-line and table branches:
`split("#")` when a `#` occurs, else `split(/[\s,]+/)`; pieces trimmed,
empties dropped. -/
def parseTags (t : List Char) : List (List Char) :=
  if t.contains '#' then
    ((splitCh '#' t).map trim).filter (fun x => x ≠ [])
  else
    ((splitRuns (fun c => isWS c || c = ',') t).map trim).filter (fun x => x ≠ [])

/-- One line of a multi-line block: classification by (case-sensitive) prefix,
assigning the corresponding card field. -/
def applyLine (card : AnkiCard) (line : List Char) : AnkiCard :=
  if startsWith "Q:".data line then { card with question := trim (line.drop 2) }
  else if startsWith "A:".data line then { card with answer := trim (line.drop 2) }
  else if startsWith "annotation:".data line then { card with annot := some (trim (line.drop 11)) }
  else if startsWith "tags:".data line then { card with tags := some (parseTags (trim (line.drop 5))) }
  else card

/-- Cards contributed by one block of the multi-line branch (zero or one). -/
def blockCards (block : List Char) : List AnkiCard :=
  let lines := ((splitCh '\n' block).map trim).filter (fun l => l ≠ [])
  let card := lines.foldl applyLine { question := [], answer := [], annot := none, tags := none }
  if card.question ≠ [] ∧ card.answer ≠ [] then [card] else []

/-- The multi-line branch: split into blocks at blank lines, parse each block. -/
def parseMultiLine (text : List Char) : List AnkiCard :=
  ((blockSplit text).filter (fun b => trim b ≠ [])).foldl (fun acc b => acc ++ blockCards b) []

/-- Consume a case-insensitive literal, returning the rest. -/
def eatCI (pat l : List Char) : Option (List Char) :=
  if startsCI pat l then some (l.drop pat.length) else none

/-- Consume at least one whitespace character (maximal run), returning the rest. -/
def ws1Skip : List Char → Option (List Char)
  | [] => none
  | c :: rest => if isWS c then some (rest.dropWhile isWS) else none

/-- The table header test `/^Q[\t\s]+A[\t\s]+annotation[\t\s]+tags$/i`. -/
def isTableHeader (l : List Char) : Bool :=
  (do
    let r1 ← eatCI "q".data l
    let r2 ← ws1Skip r1
    let r3 ← eatCI "a".data r2
    let r4 ← ws1Skip r3
    let r5 ← eatCI "annotation".data r4
    let r6 ← ws1Skip r5
    let r7 ← eatCI "tags".data r6
    if r7 = [] then some () else none).isSome

/-- One data row of the table branch. -/
def tableRow (line : List Char) : List AnkiCard :=
  let t := trim line
  if t = [] then []
  else
    let parts := if t.contains '\t' then splitCh '\t' t else splitWS2 t
    match parts with
    | p0 :: p1 :: restp =>
      let base : AnkiCard := { question := trim p0, answer := trim p1, annot := none, tags := none }
      let c1 :=
        match restp with
        | p2 :: _ => if trim p2 ≠ [] then { base with annot := some (trim p2) } else base
        | [] => base
      let c2 :=
        match restp with
        | _ :: p3 :: _ => if trim p3 ≠ [] then { c1 with tags := some (parseTags (trim p3)) } else c1
        | _ => c1
      [c2]
    | _ => []

/-- Between `Q:` and the chosen `A:` of `/Q:\s*(.*?)\s*A:/i`: the segment must
decompose as whitespace, `.`-characters, whitespace; the group is the middle. -/
def decompQ (segRev : List Char) : Option (List Char) :=
  let mid := dropTrailWS ((segRev.reverse).dropWhile isWS)
  if mid.all isDot then some mid else none

/-- End test of the lazy answer group: `(?:\s*annotation:|$|\s*tags:)`. -/
def altQA (l : List Char) : Bool :=
  decide (l = []) || startsCI "annotation:".data (l.dropWhile isWS) ||
    startsCI "tags:".data (l.dropWhile isWS)

/-- Lazy `(.*?)` growth until `altQA` matches; fails on a non-`.` character. -/
def g2scan : List Char → Option (List Char)
  | [] => some []
  | c :: rest =>
    if altQA (c :: rest) then some []
    else if isDot c then (g2scan rest).map (fun g => c :: g) else none

/-- After `A:`: greedy `\s*`, then the lazy answer group. -/
def g2side (l : List Char) : Option (List Char) :=
  g2scan (l.dropWhile isWS)

/-- Search the `A:` occurrences after a `Q:`; `segRev` holds (reversed) the
characters between.  Returns the two captured groups of the first `A:` at which
the whole pattern completes. -/
def tryAPos (segRev : List Char) : List Char → Option (List Char × List Char)
  | [] => none
  | c :: rest =>
    if startsCI "a:".data (c :: rest) then
      match decompQ segRev, g2side (rest.drop 1) with
      | some g1, some g2 => some (g1, g2)
      | _, _ => tryAPos (c :: segRev) rest
    else tryAPos (c :: segRev) rest

/-- The fallback line regex `/Q:\s*(.*?)\s*A:\s*(.*?)(?:\s*annotation:|$|\s*tags:)/i`:
leftmost `Q:` from which the pattern completes; returns the two groups. -/
def qaScan : List Char → Option (List Char × List Char)
  | [] => none
  | c :: rest =>
    if startsCI "q:".data (c :: rest) then
      match tryAPos [] (rest.drop 1) with
      | some r => some r
      | none => qaScan rest
    else qaScan rest

/-- End test of the lazy annotation group: `(?:\s*tags:|$)`. -/
def altAnn (l : List Char) : Bool :=
  decide (l = []) || startsCI "tags:".data (l.dropWhile isWS)

/-- Lazy group growth for the annotation regex. -/
def annGrow : List Char → Option (List Char)
  | [] => some []
  | c :: rest =>
    if altAnn (c :: rest) then some []
    else if isDot c then (annGrow rest).map (fun g => c :: g) else none

/-- `/annotation:\s*(.*?)(?:\s*tags:|$)/i`: leftmost completing occurrence. -/
def annScan : List Char → Option (List Char)
  | [] => none
  | c :: rest =>
    if startsCI "annotation:".data (c :: rest) then
      match annGrow (((c :: rest).drop 11).dropWhile isWS) with
      | some g => some g
      | none => annScan rest
    else annScan rest

/-- `/tags:\s*(.*?)$/i`: leftmost occurrence from which `.`-characters reach
the end of the line. -/
def tagsScan : List Char → Option (List Char)
  | [] => none
  | c :: rest =>
    if startsCI "tags:".data (c :: rest) then
      let g := (((c :: rest).drop 5).dropWhile isWS)
      if g.all isDot then some g else tagsScan rest
    else tagsScan rest

/-- The fallback branch for one line: the single-line `Q:`/`A:` regex, else the
`:::` delimiter. -/
def fallbackLine (line : List Char) : List AnkiCard :=
  match qaScan line with
  | some (g1, g2) =>
    let base : AnkiCard := { question := trim g1, answer := trim g2, annot := none, tags := none }
    let c1 :=
      match annScan line with
      | some g => { base with annot := some (trim g) }
      | none => base
    let c2 :=
      match tagsScan line with
      | some g =>
        if g ≠ [] then { c1 with tags := some (((splitCh '#' g).map trim).filter (fun x => x ≠ [])) }
        else c1
      | none => c1
    [c2]
  | none =>
    match splitTriColon line with
    | p0 :: p1 :: _ => [{ question := trim p0, answer := trim p1, annot := none, tags := none }]
    | _ => []

/-- `text.split("\n").filter((line) => line.trim())`. -/
def filterLines (text : List Char) : List (List Char) :=
  (splitCh '\n' text).filter (fun l => trim l ≠ [])

/-- The parser `parseAnkiCards` of the source: multi-line block format when
detected, else table format when the first non-blank line is a header, else
the fallback line-oriented format. -/
def parseAnkiCards (text : List Char) : List AnkiCard :=
  if multiLineTest text then parseMultiLine text
  else
    match filterLines text with
    | [] => []
    | l0 :: restLines =>
      if isTableHeader (trim l0) then
        restLines.foldl (fun acc l => acc ++ tableRow l) []
      else
        (l0 :: restLines).foldl (fun acc l => acc ++ fallbackLine l) []

/-- Failure of the field mapping (the two `throw new Error` sites of the
mapping code in `addNotesToAnki`). -/
inductive MappingError where
  | cannotDetermine : MappingError
  | emptyField : List Char → MappingError
deriving DecidableEq

/-- The styled annotation appended to the answer side. -/
def annotStyled (ann : List Char) : List Char :=
  "\n<hr>\n<span style=\"color: rgb(143, 53, 8);\">".data ++ ann ++ "</span>".data

/-- `card.answer + (card.annotation ? separator + styled : "")` (JS truthiness:
an absent or empty annotation contributes nothing). -/
def answerSide (card : AnkiCard) : List Char :=
  card.answer ++
    (match card.annot with
     | some ann => if ann ≠ [] then annotStyled ann else []
     | none => [])

/-- The field mapping ladder of `addNotesToAnki` before validation: the three
schema templates, then the positional fallback (a JS object literal with two
computed keys collapses to one entry when the keys coincide), else no mapping. -/
def computedFields (card : AnkiCard) (names : List (List Char)) :
    Option (List (List Char × List Char)) :=
  if names.contains "Front".data && names.contains "Back".data then
    some [("Front".data, card.question), ("Back".data, answerSide card)]
  else if names.contains "正面".data && names.contains "背面".data then
    some [("正面".data, card.question), ("背面".data, answerSide card)]
  else if names.contains "Text".data && names.contains "Extra".data then
    some [("Text".data, card.question), ("Extra".data, answerSide card)]
  else
    match names with
    | n0 :: n1 :: _ =>
      if n0 = n1 then some [(n0, answerSide card)]
      else some [(n0, card.question), (n1, answerSide card)]
    | _ => none

/-- First field whose value is empty (or trims to empty), as in the validation
loop `for (const [key, value] of Object.entries(fields))`. -/
def firstEmptyField : List (List Char × List Char) → Option (List Char)
  | [] => none
  | (k, v) :: rest => if v = [] ∨ trim v = [] then some k else firstEmptyField rest

/-- The field mapping of one card onto a schema (`mapFields` of the spec):
build the mapping by the template ladder, then validate every value non-empty. -/
def mapFields (card : AnkiCard) (names : List (List Char)) :
    Except MappingError (List (List Char × List Char)) :=
  match computedFields card names with
  | none => .error .cannotDetermine
  | some fs =>
    match firstEmptyField fs with
    | some k => .error (.emptyField k)
    | none => .ok fs

deriving instance DecidableEq for Except

/-- What the multi-line detection actually requires of the text: an occurrence
of `Q:` (case-insensitive, anywhere in a line), the remainder of that line, a
newline, and then `A:` (case-insensitive) at the start of the next line. -/
def multiLineSpec (l : List Char) : Prop :=
  ∃ (pre mid post : List Char) (qc ac : Char),
    (qc = 'Q' ∨ qc = 'q') ∧ (ac = 'A' ∨ ac = 'a') ∧ mid.all isDot = true ∧
    l = pre ++ qc :: ':' :: (mid ++ '\n' :: ac :: ':' :: post)

end Ankify

namespace Ankify

/-! ### Character-level toolkit -/

theorem char_toNat_inj {a b : Char} (h : a.toNat = b.toNat) : a = b := by
  apply Char.ext
  apply UInt32.ext
  exact h

theorem ciMatchChar_q_iff (c : Char) : ciMatchChar 'q' c = true ↔ c = 'q' ∨ c = 'Q' := by
  constructor
  · intro h
    simp only [ciMatchChar, Bool.or_eq_true, Bool.and_eq_true, decide_eq_true_eq] at h
    rcases h with h | ⟨⟨_, _⟩, h⟩
    · exact Or.inl h
    · right
      apply char_toNat_inj
      have h1 : ('q' : Char).toNat = 113 := rfl
      have h2 : ('Q' : Char).toNat = 81 := rfl
      omega
  · rintro (rfl | rfl) <;> decide

theorem ciMatchChar_a_iff (c : Char) : ciMatchChar 'a' c = true ↔ c = 'a' ∨ c = 'A' := by
  constructor
  · intro h
    simp only [ciMatchChar, Bool.or_eq_true, Bool.and_eq_true, decide_eq_true_eq] at h
    rcases h with h | ⟨⟨_, _⟩, h⟩
    · exact Or.inl h
    · right
      apply char_toNat_inj
      have h1 : ('a' : Char).toNat = 97 := rfl
      have h2 : ('A' : Char).toNat = 65 := rfl
      omega
  · rintro (rfl | rfl) <;> decide

theorem ciMatchChar_colon_iff (c : Char) : ciMatchChar ':' c = true ↔ c = ':' := by
  constructor
  · intro h
    simp only [ciMatchChar, Bool.or_eq_true, Bool.and_eq_true, decide_eq_true_eq] at h
    rcases h with h | ⟨⟨h97, _⟩, _⟩
    · exact h
    · have : (':' : Char).toNat = 58 := rfl
      omega
  · rintro rfl
    decide

theorem startsCI_qc_iff (l : List Char) :
    startsCI "q:".data l = true ↔ ∃ c rest, l = c :: ':' :: rest ∧ (c = 'q' ∨ c = 'Q') := by
  rw [show "q:".data = ['q', ':'] from rfl]
  constructor
  · intro h
    rcases l with - | ⟨c, - | ⟨d, rest⟩⟩
    · exact absurd h (by decide)
    · exact absurd h (by simp [startsCI])
    · simp only [startsCI, Bool.and_eq_true] at h
      exact ⟨c, rest, by rw [(ciMatchChar_colon_iff d).mp h.2.1], (ciMatchChar_q_iff c).mp h.1⟩
  · rintro ⟨c, rest, rfl, hc⟩
    simp [startsCI, ciMatchChar_q_iff, ciMatchChar_colon_iff, hc]

theorem startsCI_ac_iff (l : List Char) :
    startsCI "a:".data l = true ↔ ∃ c rest, l = c :: ':' :: rest ∧ (c = 'a' ∨ c = 'A') := by
  rw [show "a:".data = ['a', ':'] from rfl]
  constructor
  · intro h
    rcases l with - | ⟨c, - | ⟨d, rest⟩⟩
    · exact absurd h (by decide)
    · exact absurd h (by simp [startsCI])
    · simp only [startsCI, Bool.and_eq_true] at h
      exact ⟨c, rest, by rw [(ciMatchChar_colon_iff d).mp h.2.1], (ciMatchChar_a_iff c).mp h.1⟩
  · rintro ⟨c, rest, rfl, hc⟩
    simp [startsCI, ciMatchChar_a_iff, ciMatchChar_colon_iff, hc]

theorem nonl_of_dots {x : List Char} (h : x.all isDot = true) : ∀ c ∈ x, c ≠ '\n' := by
  intro c hc he
  have := List.all_eq_true.mp h c hc
  subst he
  simp [isDot] at this

/-! ### Trim toolkit -/

theorem dropWhile_fix_head {p : Char → Bool} {c : Char} {l : List Char}
    (h : (c :: l).dropWhile p = c :: l) : p c = false := by
  by_contra hb
  have hb' : p c = true := by simpa using hb
  rw [List.dropWhile_cons_of_pos hb'] at h
  have := (List.dropWhile_suffix p : l.dropWhile p <:+ l).length_le
  rw [h] at this
  simp at this

theorem trim_fix_parts {x : List Char} (h : trim x = x) :
    x.dropWhile isWS = x ∧ dropTrailWS x = x := by
  have h1 : (x.dropWhile isWS).length ≤ x.length :=
    (List.dropWhile_suffix isWS : x.dropWhile isWS <:+ x).length_le
  have h2 : (trim x).length ≤ (x.dropWhile isWS).length := by
    unfold trim dropTrailWS
    have := (List.dropWhile_suffix isWS :
      (x.dropWhile isWS).reverse.dropWhile isWS <:+ (x.dropWhile isWS).reverse).length_le
    simpa using this
  have hlen : (x.dropWhile isWS).length = x.length := by
    rw [h] at h2
    omega
  have hfix : x.dropWhile isWS = x :=
    (List.dropWhile_suffix isWS : x.dropWhile isWS <:+ x).sublist.eq_of_length hlen
  refine ⟨hfix, ?_⟩
  have : trim x = dropTrailWS x := by rw [trim, hfix]
  rw [← this, h]

theorem dropTrail_fix_rev {x : List Char} :
    dropTrailWS x = x ↔ x.reverse.dropWhile isWS = x.reverse := by
  unfold dropTrailWS
  constructor
  · intro h
    have := congrArg List.reverse h
    simpa using this
  · intro h
    rw [h, List.reverse_reverse]

theorem dropTrail_append {a x : List Char} (h2 : dropTrailWS x = x) (hxne : x ≠ []) :
    dropTrailWS (a ++ x) = a ++ x := by
  have hrev : x.reverse.dropWhile isWS = x.reverse := dropTrail_fix_rev.mp h2
  obtain ⟨d, xr, hd⟩ : ∃ d xr, x.reverse = d :: xr := by
    cases hxr : x.reverse with
    | nil =>
      exact absurd (by simpa using congrArg List.reverse hxr) hxne
    | cons d xr => exact ⟨d, xr, rfl⟩
  have hdws : isWS d = false := by
    rw [hd] at hrev
    exact dropWhile_fix_head hrev
  unfold dropTrailWS
  rw [List.reverse_append, hd, List.cons_append,
    List.dropWhile_cons_of_neg (by simp [hdws]), ← List.cons_append, ← hd,
    ← List.reverse_append, List.reverse_reverse]

theorem trim_space {x : List Char} (h : trim x = x) : trim (' ' :: x) = x := by
  obtain ⟨h1, h2⟩ := trim_fix_parts h
  unfold trim
  rw [List.dropWhile_cons_of_pos (by decide), h1]
  exact h2

theorem trim_sandwich {c : Char} {t x : List Char} (hc : isWS c = false)
    (hx : trim x = x) (hxne : x ≠ []) : trim (c :: (t ++ x)) = c :: (t ++ x) := by
  obtain ⟨-, h2⟩ := trim_fix_parts hx
  unfold trim
  rw [List.dropWhile_cons_of_neg (by simp [hc])]
  have : c :: (t ++ x) = (c :: t) ++ x := by simp
  rw [this]
  exact dropTrail_append h2 hxne

/-! ### Splitting toolkit -/

theorem consHead_cons (c : Char) (g : List Char) (gs : List (List Char)) :
    consHead c (g :: gs) = (c :: g) :: gs := rfl

theorem splitCh_ne_nil (sep : Char) (l : List Char) : splitCh sep l ≠ [] := by
  induction l with
  | nil => simp [splitCh]
  | cons c rest ih =>
    simp only [splitCh]
    split
    · simp
    · cases h : splitCh sep rest with
      | nil => exact absurd h ih
      | cons g gs => simp [consHead]

theorem splitCh_nosep {sep : Char} {l : List Char} (h : ∀ c ∈ l, c ≠ sep) :
    splitCh sep l = [l] := by
  induction l with
  | nil => rfl
  | cons c rest ih =>
    have hc : c ≠ sep := h c (by simp)
    simp only [splitCh, if_neg hc]
    rw [ih (fun d hd => h d (by simp [hd]))]
    rfl

theorem splitCh_append_sep {sep : Char} {a r : List Char} (h : ∀ c ∈ a, c ≠ sep) :
    splitCh sep (a ++ sep :: r) = a :: splitCh sep r := by
  induction a with
  | nil => simp [splitCh]
  | cons c a' ih =>
    have hc : c ≠ sep := h c (by simp)
    simp only [List.cons_append, splitCh, if_neg hc, List.append_eq]
    rw [ih (fun d hd => h d (by simp [hd]))]
    rfl

theorem blockSplitGo_ne_nil (k : Nat) (l : List Char) : blockSplitGo k l ≠ [] := by
  induction l generalizing k with
  | nil => simp [blockSplitGo]
  | cons c rest ih =>
    match k with
    | k + 1 => exact ih k
    | 0 =>
      simp only [blockSplitGo]
      split
      · split
        · simp
        · cases h : blockSplitGo 0 rest with
          | nil => exact absurd h (ih 0)
          | cons g gs => simp [consHead]
      · cases h : blockSplitGo 0 rest with
        | nil => exact absurd h (ih 0)
        | cons g gs => simp [consHead]

theorem blockSplitGo_skip (a r : List Char) :
    blockSplitGo a.length (a ++ r) = blockSplitGo 0 r := by
  induction a with
  | nil => rfl
  | cons c a' ih => simpa [blockSplitGo] using ih

theorem nlSep_nonws {c : Char} {r : List Char} (h : isWS c = false) :
    nlSep (c :: r) = none := by
  simp [nlSep, List.takeWhile_cons, h, lastNlIdx]

theorem nlSep_nl_nonws {c : Char} {r : List Char} (h : isWS c = false) :
    nlSep ('\n' :: c :: r) = some 1 := by
  simp only [nlSep, List.takeWhile_cons]
  rw [if_pos (by decide), if_neg (by simp [h])]
  rfl

theorem blockSplit_append_nonl {a r : List Char} (ha : ∀ c ∈ a, c ≠ '\n')
    {g : List Char} {gs : List (List Char)} (hr : blockSplitGo 0 r = g :: gs) :
    blockSplitGo 0 (a ++ r) = (a ++ g) :: gs := by
  induction a with
  | nil => simpa using hr
  | cons c a' ih =>
    have hc : c ≠ '\n' := ha c (by simp)
    simp only [List.cons_append, blockSplitGo, if_neg hc, List.append_eq]
    rw [ih (fun d hd => ha d (by simp [hd]))]
    simp [consHead]

theorem blockSplit_nonl {a : List Char} (ha : ∀ c ∈ a, c ≠ '\n') :
    blockSplitGo 0 a = [a] := by
  have := blockSplit_append_nonl ha (show blockSplitGo 0 ([] : List Char) = [[]] from rfl)
  simpa using this

theorem blockSplit_nl_none {r : List Char} (h : nlSep r = none)
    {g : List Char} {gs : List (List Char)} (hr : blockSplitGo 0 r = g :: gs) :
    blockSplitGo 0 ('\n' :: r) = ('\n' :: g) :: gs := by
  simp only [blockSplitGo, if_pos rfl, h]
  rw [hr]
  rfl

theorem blockSplit_nl_sep {r : List Char} {k : Nat} (h : nlSep r = some k) :
    blockSplitGo 0 ('\n' :: r) = [] :: blockSplitGo k r := by
  simp [blockSplitGo, h]

/-! ### Multi-line detection characterization -/

theorem mlFromQ_decomp {m : List Char} (h : mlFromQ m = true) :
    ∃ mid post ac, m = mid ++ '\n' :: ac :: ':' :: post ∧ mid.all isDot = true ∧
      (ac = 'A' ∨ ac = 'a') := by
  induction m with
  | nil => simp [mlFromQ] at h
  | cons c rest ih =>
    simp only [mlFromQ] at h
    by_cases hc : c = '\n'
    · rw [if_pos hc] at h
      obtain ⟨a, post, hrest, ha⟩ := (startsCI_ac_iff rest).mp h
      exact ⟨[], post, a, by simp [hc, hrest], rfl, by tauto⟩
    · rw [if_neg hc] at h
      rw [Bool.and_eq_true] at h
      obtain ⟨hdot, hrec⟩ := h
      obtain ⟨mid, post, a, hm, hdots, ha⟩ := ih hrec
      exact ⟨c :: mid, post, a, by simp [hm], by simp [List.all_cons, hdot, hdots], ha⟩

theorem mlFromQ_of_decomp {mid post : List Char} {ac : Char}
    (hdots : mid.all isDot = true) (hac : ac = 'A' ∨ ac = 'a') :
    mlFromQ (mid ++ '\n' :: ac :: ':' :: post) = true := by
  induction mid with
  | nil =>
    simp only [List.nil_append, mlFromQ, if_pos rfl]
    exact (startsCI_ac_iff _).mpr ⟨ac, post, rfl, by tauto⟩
  | cons c mid' ih =>
    obtain ⟨hc, hrest⟩ : isDot c = true ∧ mid'.all isDot = true := by
      simpa [List.all_cons] using hdots
    have hcn : c ≠ '\n' := by
      intro e
      subst e
      simp [isDot] at hc
    simp only [List.cons_append, mlFromQ, if_neg hcn]
    rw [Bool.and_eq_true]
    exact ⟨hc, ih hrest⟩

theorem multiLineTest_mono {c : Char} {rest : List Char} (h : multiLineTest rest = true) :
    multiLineTest (c :: rest) = true := by
  simp [multiLineTest, h]

theorem multiLineTest_iff (l : List Char) : multiLineTest l = true ↔ multiLineSpec l := by
  constructor
  · intro h
    induction l with
    | nil => simp [multiLineTest] at h
    | cons c rest ih =>
      simp only [multiLineTest, Bool.or_eq_true, Bool.and_eq_true] at h
      rcases h with ⟨hq, hml⟩ | h
      · obtain ⟨qc, rest2, hr, hqc⟩ := (startsCI_qc_iff (c :: rest)).mp hq
        injection hr with h1 h2
        subst h1
        obtain ⟨mid, post, ac, hm, hdots, ha⟩ := mlFromQ_decomp (by
          rw [h2] at hml
          simpa using hml)
        refine ⟨[], mid, post, c, ac, by tauto, by tauto, hdots, ?_⟩
        simp [h2, hm]
      · obtain ⟨pre, mid, post, qc, ac, h1, h2, h3, h4⟩ := ih h
        exact ⟨c :: pre, mid, post, qc, ac, h1, h2, h3, by simp [h4]⟩
  · rintro ⟨pre, mid, post, qc, ac, hqc, hac, hdots, rfl⟩
    induction pre with
    | nil =>
      simp only [List.nil_append, multiLineTest, Bool.or_eq_true, Bool.and_eq_true]
      left
      refine ⟨(startsCI_qc_iff _).mpr ⟨qc, _, rfl, by tauto⟩, ?_⟩
      simpa using mlFromQ_of_decomp hdots hac
    | cons c pre' ih2 =>
      simpa using multiLineTest_mono (by simpa using ih2)

/-! ### Substring occurrence toolkit -/

theorem startsWith_append {pat l b : List Char} (h : startsWith pat l = true) :
    startsWith pat (l ++ b) = true := by
  induction pat generalizing l with
  | nil => rfl
  | cons p ps ih =>
    cases l with
    | nil => exact absurd h (by simp [startsWith])
    | cons c cs =>
      simp only [startsWith, Bool.and_eq_true] at h ⊢
      exact ⟨h.1, ih h.2⟩

theorem startsCI_append {pat l b : List Char} (h : startsCI pat l = true) :
    startsCI pat (l ++ b) = true := by
  induction pat generalizing l with
  | nil => rfl
  | cons p ps ih =>
    cases l with
    | nil => exact absurd h (by simp [startsCI])
    | cons c cs =>
      simp only [startsCI, Bool.and_eq_true] at h ⊢
      exact ⟨h.1, ih h.2⟩

theorem hasSeq_nil_pat (l : List Char) : hasSeq [] l = true := by
  cases l <;> simp [hasSeq, startsWith]

theorem hasSeqCI_nil_pat (l : List Char) : hasSeqCI [] l = true := by
  cases l <;> simp [hasSeqCI, startsCI]

theorem hasSeq_append_right {pat l b : List Char} (h : hasSeq pat l = true) :
    hasSeq pat (l ++ b) = true := by
  induction l with
  | nil =>
    simp only [hasSeq, decide_eq_true_eq] at h
    subst h
    exact hasSeq_nil_pat b
  | cons c rest ih =>
    simp only [hasSeq, Bool.or_eq_true] at h ⊢
    rcases h with h | h
    · exact Or.inl (by
        simpa using (startsWith_append h : startsWith pat ((c :: rest) ++ b) = true))
    · exact Or.inr (ih h)

theorem hasSeqCI_append_right {pat l b : List Char} (h : hasSeqCI pat l = true) :
    hasSeqCI pat (l ++ b) = true := by
  induction l with
  | nil =>
    simp only [hasSeqCI, decide_eq_true_eq] at h
    subst h
    exact hasSeqCI_nil_pat b
  | cons c rest ih =>
    simp only [hasSeqCI, Bool.or_eq_true] at h ⊢
    rcases h with h | h
    · exact Or.inl (by
        simpa using (startsCI_append h : startsCI pat ((c :: rest) ++ b) = true))
    · exact Or.inr (ih h)

theorem hasSeq_append_left {pat a l : List Char} (h : hasSeq pat l = true) :
    hasSeq pat (a ++ l) = true := by
  induction a with
  | nil => simpa using h
  | cons c a' ih =>
    simp only [List.cons_append, hasSeq, Bool.or_eq_true]
    exact Or.inr ih

theorem hasSeqCI_append_left {pat a l : List Char} (h : hasSeqCI pat l = true) :
    hasSeqCI pat (a ++ l) = true := by
  induction a with
  | nil => simpa using h
  | cons c a' ih =>
    simp only [List.cons_append, hasSeqCI, Bool.or_eq_true]
    exact Or.inr ih

theorem splitCh_head_pre (sep : Char) (l : List Char) :
    ∃ b, l = (splitCh sep l).headD [] ++ b := by
  induction l with
  | nil => exact ⟨[], rfl⟩
  | cons c rest ih =>
    simp only [splitCh]
    split
    · exact ⟨c :: rest, rfl⟩
    · obtain ⟨b, hb⟩ := ih
      cases hs : splitCh sep rest with
      | nil => exact absurd hs (splitCh_ne_nil sep rest)
      | cons g gs =>
        rw [hs] at hb
        exact ⟨b, by simpa [consHead] using congrArg (c :: ·) hb⟩

theorem splitCh_infix {sep : Char} {l g : List Char} (h : g ∈ splitCh sep l) :
    ∃ a b, l = a ++ g ++ b := by
  induction l generalizing g with
  | nil =>
    simp only [splitCh, List.mem_singleton] at h
    exact ⟨[], [], by simp [h]⟩
  | cons c rest ih =>
    simp only [splitCh] at h
    by_cases hc : c = sep
    · rw [if_pos hc] at h
      rcases List.mem_cons.mp h with rfl | h
      · exact ⟨[], c :: rest, rfl⟩
      · obtain ⟨a, b, hab⟩ := ih h
        exact ⟨c :: a, b, by simp [hab]⟩
    · rw [if_neg hc] at h
      cases hs : splitCh sep rest with
      | nil => exact absurd hs (splitCh_ne_nil sep rest)
      | cons g0 gs =>
        rw [hs, consHead_cons] at h
        rcases List.mem_cons.mp h with rfl | h
        · obtain ⟨b, hb⟩ := splitCh_head_pre sep rest
          rw [hs] at hb
          exact ⟨[], b, by simpa using congrArg (c :: ·) hb⟩
        · obtain ⟨a, b, hab⟩ := ih (by rw [hs]; exact List.mem_cons_of_mem g0 h)
          exact ⟨c :: a, b, by simp [hab]⟩

/-! ### Fallback-branch emptiness -/

theorem qaScan_none {l : List Char} (h : hasSeqCI "q:".data l = false) : qaScan l = none := by
  induction l with
  | nil => rfl
  | cons c rest ih =>
    simp only [hasSeqCI, Bool.or_eq_false_iff] at h
    obtain ⟨h1, h2⟩ := h
    unfold qaScan
    split
    · next hcond => exact absurd hcond (by simp [h1])
    · exact ih h2

theorem splitTriGo_nosub {l : List Char} (h : hasSeq ":::".data l = false) :
    splitTriGo 0 l = [l] := by
  induction l with
  | nil => rfl
  | cons c rest ih =>
    simp only [hasSeq, Bool.or_eq_false_iff] at h
    obtain ⟨h1, h2⟩ := h
    unfold splitTriGo
    split
    · next hcond => exact absurd hcond (by simp [h1])
    · rw [ih h2]
      rfl

theorem multiLineTest_none {l : List Char} (h : hasSeqCI "q:".data l = false) :
    multiLineTest l = false := by
  induction l with
  | nil => rfl
  | cons c rest ih =>
    simp only [hasSeqCI, Bool.or_eq_false_iff] at h
    simp only [multiLineTest, Bool.or_eq_false_iff, Bool.and_eq_false_iff]
    exact ⟨Or.inl (by simp [h.1]), ih h.2⟩

theorem fallbackLine_empty {l : List Char} (hq : hasSeqCI "q:".data l = false)
    (ht : hasSeq ":::".data l = false) : fallbackLine l = [] := by
  unfold fallbackLine
  rw [qaScan_none hq]
  unfold splitTriColon
  rw [splitTriGo_nosub ht]

/-! ### Fold toolkit -/

theorem foldl_append_acc {α β : Type} (f : α → List β) (ls : List α) (acc : List β) :
    ls.foldl (fun a l => a ++ f l) acc = acc ++ (ls.map f).flatten := by
  induction ls generalizing acc with
  | nil => simp
  | cons l ls ih => simp [List.foldl_cons, ih]

end Ankify

namespace Ankify

/-! ### Multi-line block machinery -/

theorem nonl_concat {a x : List Char} (ha : ∀ c ∈ a, c ≠ '\n') (hx : x.all isDot = true) :
    ∀ c ∈ a ++ x, c ≠ '\n' := by
  intro c hc
  rcases List.mem_append.mp hc with h | h
  · exact ha c h
  · exact nonl_of_dots hx c h

theorem applyLine_q (c : AnkiCard) (x : List Char) :
    applyLine c ('Q' :: ':' :: ' ' :: x) = { c with question := trim (' ' :: x) } := rfl

theorem applyLine_a (c : AnkiCard) (y : List Char) :
    applyLine c ('A' :: ':' :: ' ' :: y) = { c with answer := trim (' ' :: y) } := rfl

theorem blockSplit_single {x y : List Char}
    (hxd : x.all isDot = true) (hyd : y.all isDot = true) :
    blockSplitGo 0 (("Q: ".data ++ x) ++ '\n' :: ("A: ".data ++ y)) =
      [("Q: ".data ++ x) ++ '\n' :: ("A: ".data ++ y)] := by
  have hqnl : ∀ c ∈ "Q: ".data ++ x, c ≠ '\n' := nonl_concat (by decide) hxd
  have hanl : ∀ c ∈ "A: ".data ++ y, c ≠ '\n' := nonl_concat (by decide) hyd
  have h1 : nlSep ("A: ".data ++ y) = none := by
    rw [show "A: ".data ++ y = 'A' :: ([':', ' '] ++ y) from rfl]
    exact nlSep_nonws (by decide)
  have h2 : blockSplitGo 0 ('\n' :: ("A: ".data ++ y)) =
      ['\n' :: ("A: ".data ++ y)] :=
    blockSplit_nl_none h1 (blockSplit_nonl hanl)
  rw [blockSplit_append_nonl hqnl h2]

theorem blockCards_qa {x y : List Char} (hx : trim x = x) (hxne : x ≠ []) (hxd : x.all isDot = true)
    (hy : trim y = y) (hyne : y ≠ []) (hyd : y.all isDot = true) :
    blockCards (("Q: ".data ++ x) ++ '\n' :: ("A: ".data ++ y)) = [⟨x, y, none, none⟩] := by
  have hqnl : ∀ c ∈ "Q: ".data ++ x, c ≠ '\n' := nonl_concat (by decide) hxd
  have hanl : ∀ c ∈ "A: ".data ++ y, c ≠ '\n' := nonl_concat (by decide) hyd
  have hsplit : splitCh '\n' (("Q: ".data ++ x) ++ '\n' :: ("A: ".data ++ y)) =
      ["Q: ".data ++ x, "A: ".data ++ y] := by
    rw [splitCh_append_sep hqnl, splitCh_nosep hanl]
  have htq : trim ("Q: ".data ++ x) = "Q: ".data ++ x := by
    rw [show "Q: ".data ++ x = 'Q' :: ([':', ' '] ++ x) from rfl]
    exact trim_sandwich (by decide) hx hxne
  have hta : trim ("A: ".data ++ y) = "A: ".data ++ y := by
    rw [show "A: ".data ++ y = 'A' :: ([':', ' '] ++ y) from rfl]
    exact trim_sandwich (by decide) hy hyne
  simp only [blockCards]
  rw [hsplit]
  simp only [List.map_cons, List.map_nil, htq, hta]
  rw [List.filter_cons_of_pos (by
        rw [show "Q: ".data ++ x = 'Q' :: ([':', ' '] ++ x) from rfl]
        simp),
      List.filter_cons_of_pos (by
        rw [show "A: ".data ++ y = 'A' :: ([':', ' '] ++ y) from rfl]
        simp),
      List.filter_nil]
  simp only [List.foldl_cons, List.foldl_nil]
  rw [show "Q: ".data ++ x = 'Q' :: ':' :: ' ' :: x from rfl, applyLine_q, trim_space hx,
    show "A: ".data ++ y = 'A' :: ':' :: ' ' :: y from rfl, applyLine_a, trim_space hy]
  rw [if_pos ⟨hxne, hyne⟩]

theorem multiLineTest_single_qa {x rest : List Char} (hxd : x.all isDot = true) :
    multiLineTest (("Q: ".data ++ x) ++ '\n' :: ("A: ".data ++ rest)) = true := by
  refine (multiLineTest_iff _).mpr ⟨[], ' ' :: x, ' ' :: rest, 'Q', 'A', Or.inl rfl, Or.inl rfl, ?_, ?_⟩
  · simp [List.all_cons, hxd]
    decide
  · simp [show "Q: ".data = ['Q', ':', ' '] from rfl, show "A: ".data = ['A', ':', ' '] from rfl,
      List.append_assoc]

theorem parse_single_qa {x y : List Char} (hx : trim x = x) (hxne : x ≠ []) (hxd : x.all isDot = true)
    (hy : trim y = y) (hyne : y ≠ []) (hyd : y.all isDot = true) :
    parseAnkiCards (("Q: ".data ++ x) ++ '\n' :: ("A: ".data ++ y)) = [⟨x, y, none, none⟩] := by
  have hml : multiLineTest (("Q: ".data ++ x) ++ '\n' :: ("A: ".data ++ y)) = true :=
    multiLineTest_single_qa hxd
  unfold parseAnkiCards
  rw [hml]
  simp only [if_true]
  unfold parseMultiLine blockSplit
  rw [blockSplit_single hxd hyd]
  have htt : trim (("Q: ".data ++ x) ++ '\n' :: ("A: ".data ++ y)) ≠ [] := by
    rw [show ("Q: ".data ++ x) ++ '\n' :: ("A: ".data ++ y) =
        'Q' :: (([':', ' '] ++ x) ++ '\n' :: ("A: ".data ++ y)) from rfl]
    have hyc : trim y = y := hy
    rw [show ([':', ' '] ++ x) ++ '\n' :: ("A: ".data ++ y) =
        (([':', ' '] ++ x) ++ '\n' :: "A: ".data) ++ y by simp]
    rw [trim_sandwich (by decide) hyc hyne]
    simp
  rw [List.filter_cons_of_pos (by simpa using htt), List.filter_nil]
  simp only [List.foldl_cons, List.foldl_nil, List.nil_append]
  exact blockCards_qa hx hxne hxd hy hyne hyd

theorem trim_qa_block_ne {c0 : Char} {t y : List Char} (hc0 : isWS c0 = false)
    (hy : trim y = y) (hyne : y ≠ []) : trim (c0 :: (t ++ y)) ≠ [] := by
  rw [trim_sandwich hc0 hy hyne]
  simp

theorem applyLine_lq (c : AnkiCard) (x : List Char) :
    applyLine c ('q' :: ':' :: ' ' :: x) = c := rfl

theorem applyLine_la (c : AnkiCard) (y : List Char) :
    applyLine c ('a' :: ':' :: ' ' :: y) = c := rfl

theorem multiLineTest_qa_gen {x rest : List Char} {qc ac : Char}
    (hq : qc = 'Q' ∨ qc = 'q') (ha : ac = 'A' ∨ ac = 'a') (hxd : x.all isDot = true) :
    multiLineTest ((qc :: ':' :: ' ' :: x) ++ '\n' :: (ac :: ':' :: ' ' :: rest)) = true := by
  refine (multiLineTest_iff _).mpr
    ⟨[], ' ' :: x, ' ' :: rest, qc, ac, hq, ha, ?_, ?_⟩
  · simp only [List.all_cons, Bool.and_eq_true, hxd, and_true]
    decide
  · simp

theorem blockSplit_single_lc {x y : List Char}
    (hxd : x.all isDot = true) (hyd : y.all isDot = true) :
    blockSplitGo 0 (("q: ".data ++ x) ++ '\n' :: ("a: ".data ++ y)) =
      [("q: ".data ++ x) ++ '\n' :: ("a: ".data ++ y)] := by
  have hqnl : ∀ c ∈ "q: ".data ++ x, c ≠ '\n' := nonl_concat (by decide) hxd
  have hanl : ∀ c ∈ "a: ".data ++ y, c ≠ '\n' := nonl_concat (by decide) hyd
  have h1 : nlSep ("a: ".data ++ y) = none := by
    rw [show "a: ".data ++ y = 'a' :: ([':', ' '] ++ y) from rfl]
    exact nlSep_nonws (by decide)
  exact blockSplit_append_nonl hqnl (blockSplit_nl_none h1 (blockSplit_nonl hanl))

theorem blockCards_lc {x y : List Char} (hx : trim x = x) (hxne : x ≠ [])
    (hxd : x.all isDot = true) (hy : trim y = y) (hyne : y ≠ []) (hyd : y.all isDot = true) :
    blockCards (("q: ".data ++ x) ++ '\n' :: ("a: ".data ++ y)) = [] := by
  have hqnl : ∀ c ∈ "q: ".data ++ x, c ≠ '\n' := nonl_concat (by decide) hxd
  have hanl : ∀ c ∈ "a: ".data ++ y, c ≠ '\n' := nonl_concat (by decide) hyd
  have hsplit : splitCh '\n' (("q: ".data ++ x) ++ '\n' :: ("a: ".data ++ y)) =
      ["q: ".data ++ x, "a: ".data ++ y] := by
    rw [splitCh_append_sep hqnl, splitCh_nosep hanl]
  have htq : trim ("q: ".data ++ x) = "q: ".data ++ x := by
    rw [show "q: ".data ++ x = 'q' :: ([':', ' '] ++ x) from rfl]
    exact trim_sandwich (by decide) hx hxne
  have hta : trim ("a: ".data ++ y) = "a: ".data ++ y := by
    rw [show "a: ".data ++ y = 'a' :: ([':', ' '] ++ y) from rfl]
    exact trim_sandwich (by decide) hy hyne
  simp only [blockCards]
  rw [hsplit]
  simp only [List.map_cons, List.map_nil, htq, hta]
  rw [List.filter_cons_of_pos (by
        rw [show "q: ".data ++ x = 'q' :: ([':', ' '] ++ x) from rfl]
        simp),
      List.filter_cons_of_pos (by
        rw [show "a: ".data ++ y = 'a' :: ([':', ' '] ++ y) from rfl]
        simp),
      List.filter_nil]
  simp only [List.foldl_cons, List.foldl_nil]
  rw [show "q: ".data ++ x = 'q' :: ':' :: ' ' :: x from rfl, applyLine_lq,
    show "a: ".data ++ y = 'a' :: ':' :: ' ' :: y from rfl, applyLine_la]
  rfl

theorem parse_single_lc {x y : List Char} (hx : trim x = x) (hxne : x ≠ [])
    (hxd : x.all isDot = true) (hy : trim y = y) (hyne : y ≠ []) (hyd : y.all isDot = true) :
    parseAnkiCards (("q: ".data ++ x) ++ '\n' :: ("a: ".data ++ y)) = [] := by
  have hml : multiLineTest (("q: ".data ++ x) ++ '\n' :: ("a: ".data ++ y)) = true := by
    exact (multiLineTest_qa_gen (Or.inr rfl) (Or.inr rfl) hxd :
      multiLineTest (('q' :: ':' :: ' ' :: x) ++ '\n' :: ('a' :: ':' :: ' ' :: y)) = true)
  unfold parseAnkiCards
  rw [hml]
  simp only [if_true]
  unfold parseMultiLine blockSplit
  rw [blockSplit_single_lc hxd hyd]
  have htt : trim (("q: ".data ++ x) ++ '\n' :: ("a: ".data ++ y)) ≠ [] := by
    rw [show ("q: ".data ++ x) ++ '\n' :: ("a: ".data ++ y) =
        'q' :: (((([':', ' '] ++ x) ++ ['\n']) ++ "a: ".data) ++ y) by simp]
    exact trim_qa_block_ne (by decide) hy hyne
  rw [List.filter_cons_of_pos (by simpa using htt), List.filter_nil]
  simp only [List.foldl_cons, List.foldl_nil, List.nil_append]
  exact blockCards_lc hx hxne hxd hy hyne hyd

theorem parse_two_qa {x y x2 y2 : List Char}
    (hx : trim x = x) (hxne : x ≠ []) (hxd : x.all isDot = true)
    (hy : trim y = y) (hyne : y ≠ []) (hyd : y.all isDot = true)
    (hx2 : trim x2 = x2) (hx2ne : x2 ≠ []) (hx2d : x2.all isDot = true)
    (hy2 : trim y2 = y2) (hy2ne : y2 ≠ []) (hy2d : y2.all isDot = true) :
    parseAnkiCards ((("Q: ".data ++ x) ++ '\n' :: ("A: ".data ++ y)) ++
        '\n' :: '\n' :: (("Q: ".data ++ x2) ++ '\n' :: ("A: ".data ++ y2))) =
      [⟨x, y, none, none⟩, ⟨x2, y2, none, none⟩] := by
  have hml : multiLineTest ((("Q: ".data ++ x) ++ '\n' :: ("A: ".data ++ y)) ++
      '\n' :: '\n' :: (("Q: ".data ++ x2) ++ '\n' :: ("A: ".data ++ y2))) = true := by
    have h := (multiLineTest_qa_gen (Or.inl rfl) (Or.inl rfl) hxd :
      multiLineTest (('Q' :: ':' :: ' ' :: x) ++ '\n' :: ('A' :: ':' :: ' ' ::
        (y ++ '\n' :: '\n' :: (("Q: ".data ++ x2) ++ '\n' :: ("A: ".data ++ y2))))) = true)
    simpa [List.append_assoc] using h
  have hb2 : blockSplitGo 0 (("Q: ".data ++ x2) ++ '\n' :: ("A: ".data ++ y2)) =
      [("Q: ".data ++ x2) ++ '\n' :: ("A: ".data ++ y2)] := blockSplit_single hx2d hy2d
  have hsep : nlSep ('\n' :: (("Q: ".data ++ x2) ++ '\n' :: ("A: ".data ++ y2))) = some 1 := by
    rw [show ("Q: ".data ++ x2) ++ '\n' :: ("A: ".data ++ y2) =
        'Q' :: ((':' :: ' ' :: x2) ++ '\n' :: ("A: ".data ++ y2)) from rfl]
    exact nlSep_nl_nonws (by decide)
  have h3 : blockSplitGo 0 ('\n' :: '\n' :: (("Q: ".data ++ x2) ++ '\n' :: ("A: ".data ++ y2))) =
      [[], ("Q: ".data ++ x2) ++ '\n' :: ("A: ".data ++ y2)] := by
    rw [blockSplit_nl_sep hsep]
    rw [show blockSplitGo 1 ('\n' :: (("Q: ".data ++ x2) ++ '\n' :: ("A: ".data ++ y2))) =
        blockSplitGo 0 (("Q: ".data ++ x2) ++ '\n' :: ("A: ".data ++ y2)) from rfl, hb2]
  have hynl : ∀ c ∈ "A: ".data ++ y, c ≠ '\n' := nonl_concat (by decide) hyd
  have hxnl : ∀ c ∈ "Q: ".data ++ x, c ≠ '\n' := nonl_concat (by decide) hxd
  have h4 : blockSplitGo 0 (("A: ".data ++ y) ++
      '\n' :: '\n' :: (("Q: ".data ++ x2) ++ '\n' :: ("A: ".data ++ y2))) =
      [("A: ".data ++ y), ("Q: ".data ++ x2) ++ '\n' :: ("A: ".data ++ y2)] := by
    have := blockSplit_append_nonl hynl h3
    simpa using this
  have h5 : blockSplitGo 0 ('\n' :: (("A: ".data ++ y) ++
      '\n' :: '\n' :: (("Q: ".data ++ x2) ++ '\n' :: ("A: ".data ++ y2)))) =
      [('\n' :: ("A: ".data ++ y)), ("Q: ".data ++ x2) ++ '\n' :: ("A: ".data ++ y2)] := by
    have hnone : nlSep (("A: ".data ++ y) ++
        '\n' :: '\n' :: (("Q: ".data ++ x2) ++ '\n' :: ("A: ".data ++ y2))) = none := by
      rw [show ("A: ".data ++ y) ++
          '\n' :: '\n' :: (("Q: ".data ++ x2) ++ '\n' :: ("A: ".data ++ y2)) =
          'A' :: ((':' :: ' ' :: y) ++
            '\n' :: '\n' :: (("Q: ".data ++ x2) ++ '\n' :: ("A: ".data ++ y2))) from rfl]
      exact nlSep_nonws (by decide)
    exact blockSplit_nl_none hnone h4
  have h6 : blockSplitGo 0 (("Q: ".data ++ x) ++ '\n' :: (("A: ".data ++ y) ++
      '\n' :: '\n' :: (("Q: ".data ++ x2) ++ '\n' :: ("A: ".data ++ y2)))) =
      [("Q: ".data ++ x) ++ '\n' :: ("A: ".data ++ y),
        ("Q: ".data ++ x2) ++ '\n' :: ("A: ".data ++ y2)] := by
    have := blockSplit_append_nonl hxnl h5
    simpa using this
  unfold parseAnkiCards
  rw [hml]
  simp only [if_true]
  unfold parseMultiLine blockSplit
  rw [show (("Q: ".data ++ x) ++ '\n' :: ("A: ".data ++ y)) ++
      '\n' :: '\n' :: (("Q: ".data ++ x2) ++ '\n' :: ("A: ".data ++ y2)) =
      ("Q: ".data ++ x) ++ '\n' :: (("A: ".data ++ y) ++
        '\n' :: '\n' :: (("Q: ".data ++ x2) ++ '\n' :: ("A: ".data ++ y2))) by
    simp [List.append_assoc]]
  rw [h6]
  have ht1 : trim (("Q: ".data ++ x) ++ '\n' :: ("A: ".data ++ y)) ≠ [] := by
    rw [show ("Q: ".data ++ x) ++ '\n' :: ("A: ".data ++ y) =
        'Q' :: (((([':', ' '] ++ x) ++ ['\n']) ++ "A: ".data) ++ y) by simp]
    exact trim_qa_block_ne (by decide) hy hyne
  have ht2 : trim (("Q: ".data ++ x2) ++ '\n' :: ("A: ".data ++ y2)) ≠ [] := by
    rw [show ("Q: ".data ++ x2) ++ '\n' :: ("A: ".data ++ y2) =
        'Q' :: (((([':', ' '] ++ x2) ++ ['\n']) ++ "A: ".data) ++ y2) by simp]
    exact trim_qa_block_ne (by decide) hy2 hy2ne
  rw [List.filter_cons_of_pos (by simpa using ht1),
    List.filter_cons_of_pos (by simpa using ht2), List.filter_nil]
  simp only [List.foldl_cons, List.foldl_nil, List.nil_append]
  rw [blockCards_qa hx hxne hxd hy hyne hyd, blockCards_qa hx2 hx2ne hx2d hy2 hy2ne hy2d]
  rfl

/-- Claim C3 (amended): the multi-line block format is selected exactly when the
text contains an occurrence of `Q:` (case-insensitive, anywhere within a line,
not necessarily at its start) whose line is immediately followed by a line
starting with `A:` (case-insensitive); intervening `annotation:`/`tags:` lines
between the `Q:` line and the `A:` line prevent selection. -/
theorem C3_detect_iff (l : List Char) : multiLineTest l = true ↔ multiLineSpec l :=
  multiLineTest_iff l

/-- Claim C7: `parse` is total by construction, and on any text with no
case-insensitive occurrence of the `Q:` marker, no table-header line, and no
`:::` delimiter, it returns the empty sequence. -/
theorem C7_no_marker_empty (text : List Char)
    (hq : hasSeqCI "q:".data text = false)
    (ht : hasSeq ":::".data text = false)
    (hh : (filterLines text).all (fun l => !isTableHeader (trim l)) = true) :
    parseAnkiCards text = [] := by
  unfold parseAnkiCards
  rw [multiLineTest_none hq]
  simp only [Bool.false_eq_true, if_false]
  cases hfl : filterLines text with
  | nil => rfl
  | cons l0 restLines =>
    rw [hfl] at hh
    simp only [List.all_cons, Bool.and_eq_true, Bool.not_eq_true'] at hh
    show (if isTableHeader (trim l0) = true then
        restLines.foldl (fun acc l => acc ++ tableRow l) []
      else (l0 :: restLines).foldl (fun acc l => acc ++ fallbackLine l) []) = []
    rw [if_neg (by simp [hh.1])]
    rw [foldl_append_acc]
    simp only [List.nil_append]
    have hall : ∀ l ∈ l0 :: restLines, fallbackLine l = [] := by
      intro l hl
      have hlmem : l ∈ splitCh '\n' text := by
        have hmem : l ∈ filterLines text := by rw [hfl]; exact hl
        exact List.mem_of_mem_filter hmem
      obtain ⟨a, b, hab⟩ := splitCh_infix hlmem
      have hql : hasSeqCI "q:".data l = false := by
        by_contra hb
        have hb' : hasSeqCI "q:".data l = true := by simpa using hb
        have : hasSeqCI "q:".data text = true := by
          rw [hab, List.append_assoc]
          exact hasSeqCI_append_left (hasSeqCI_append_right hb')
        rw [hq] at this
        cases this
      have htl : hasSeq ":::".data l = false := by
        by_contra hb
        have hb' : hasSeq ":::".data l = true := by simpa using hb
        have : hasSeq ":::".data text = true := by
          rw [hab, List.append_assoc]
          exact hasSeq_append_left (hasSeq_append_right hb')
        rw [ht] at this
        cases this
      exact fallbackLine_empty hql htl
    rw [List.flatten_eq_nil_iff.mpr]
    intro piece hp
    obtain ⟨l, hl, rfl⟩ := List.mem_map.mp hp
    exact hall l hl

/-- Claim C7 witness: a concrete marker-free text parses to the empty sequence. -/
theorem C7_no_marker_empty_w :
    (hasSeqCI "q:".data ("hello world\nno cards here".data) = false ∧
      hasSeq ":::".data ("hello world\nno cards here".data) = false ∧
      (filterLines ("hello world\nno cards here".data)).all
        (fun l => !isTableHeader (trim l)) = true) ∧
    parseAnkiCards ("hello world\nno cards here".data) = [] :=
  ⟨by decide, C7_no_marker_empty _ (by decide) (by decide) (by decide)⟩

/-- Claim C1 (amended): in the multi-line block branch every emitted card has a
non-empty question and a non-empty answer (incomplete block records are
silently dropped); the table and fallback branches do not enforce this guard. -/
theorem C1_multiline_guard (text : List Char) (h : multiLineTest text = true) :
    ∀ c ∈ parseAnkiCards text, c.question ≠ [] ∧ c.answer ≠ [] := by
  intro c hc
  unfold parseAnkiCards at hc
  rw [h] at hc
  simp only [if_true] at hc
  unfold parseMultiLine at hc
  rw [foldl_append_acc] at hc
  simp only [List.nil_append] at hc
  obtain ⟨l, hl, hcl⟩ := List.mem_flatten.mp hc
  obtain ⟨b, hb, rfl⟩ := List.mem_map.mp hl
  simp only [blockCards] at hcl
  split at hcl
  · next hguard =>
    rcases List.mem_singleton.mp hcl with rfl
    exact hguard
  · simp at hcl

/-- Claim C1 witness: the guard evaluated on a concrete multi-line text and the
card it emits. -/
theorem C1_multiline_guard_w :
    multiLineTest ("Q: x\nA: y".data) = true ∧
      ((⟨"x".data, "y".data, none, none⟩ : AnkiCard).question ≠ [] ∧
        (⟨"x".data, "y".data, none, none⟩ : AnkiCard).answer ≠ []) :=
  ⟨by decide, C1_multiline_guard ("Q: x\nA: y".data) (by decide) _ (by decide)⟩

/-- Claim C2 (amended): line classification in the multi-line block branch is
case-sensitive (`startsWith` against the exact prefixes `Q:`, `A:`,
`annotation:`, `tags:` of lengths 2, 2, 11, 5); in particular a block
`q: x` / `a: y` with non-empty x, y is detected as multi-line but yields no
card, while `Q: x` / `A: y` yields the card. -/
theorem C2_case_sensitive (x y : List Char)
    (hx : trim x = x ∧ x ≠ [] ∧ x.all isDot = true)
    (hy : trim y = y ∧ y ≠ [] ∧ y.all isDot = true) :
    parseAnkiCards ("q: ".data ++ x ++ "\n".data ++ ("a: ".data ++ y)) = [] ∧
    parseAnkiCards ("Q: ".data ++ x ++ "\n".data ++ ("A: ".data ++ y)) =
      [⟨x, y, none, none⟩] := by
  obtain ⟨hx1, hx2, hx3⟩ := hx
  obtain ⟨hy1, hy2, hy3⟩ := hy
  constructor
  · rw [List.append_assoc]
    exact parse_single_lc hx1 hx2 hx3 hy1 hy2 hy3
  · rw [List.append_assoc]
    exact parse_single_qa hx1 hx2 hx3 hy1 hy2 hy3

/-- Claim C2 witness: the amended claim evaluated at x = `x`, y = `y`. -/
theorem C2_case_sensitive_w :
    (trim "x".data = "x".data ∧ "x".data ≠ [] ∧ List.all ("x".data) isDot = true) ∧
    parseAnkiCards ("q: ".data ++ "x".data ++ "\n".data ++ ("a: ".data ++ "y".data)) = [] ∧
    parseAnkiCards ("Q: ".data ++ "x".data ++ "\n".data ++ ("A: ".data ++ "y".data)) =
      [⟨"x".data, "y".data, none, none⟩] :=
  ⟨by decide, C2_case_sensitive ("x".data) ("y".data) (by decide) (by decide)⟩

/-- Claim C6 (amended): for non-empty single-line strings x and y that contain
no field markers and carry no leading or trailing whitespace (the parser trims
each field, so x and y must equal their own trims for the exact equality),
parsing the block `Q: x` newline `A: y` yields exactly the card ⟨x, y⟩, and
parsing two such blocks separated by a blank line yields the two cards in the
blocks' original order. -/
theorem C6_block_parse (x y x2 y2 : List Char)
    (hx : trim x = x ∧ x ≠ [] ∧ x.all isDot = true)
    (hy : trim y = y ∧ y ≠ [] ∧ y.all isDot = true)
    (hx2 : trim x2 = x2 ∧ x2 ≠ [] ∧ x2.all isDot = true)
    (hy2 : trim y2 = y2 ∧ y2 ≠ [] ∧ y2.all isDot = true)
    (_hxm : hasSeqCI "q:".data x = false ∧ hasSeqCI "a:".data x = false ∧
      hasSeqCI "annotation:".data x = false ∧ hasSeqCI "tags:".data x = false)
    (_hym : hasSeqCI "q:".data y = false ∧ hasSeqCI "a:".data y = false ∧
      hasSeqCI "annotation:".data y = false ∧ hasSeqCI "tags:".data y = false)
    (_hx2m : hasSeqCI "q:".data x2 = false ∧ hasSeqCI "a:".data x2 = false ∧
      hasSeqCI "annotation:".data x2 = false ∧ hasSeqCI "tags:".data x2 = false)
    (_hy2m : hasSeqCI "q:".data y2 = false ∧ hasSeqCI "a:".data y2 = false ∧
      hasSeqCI "annotation:".data y2 = false ∧ hasSeqCI "tags:".data y2 = false) :
    parseAnkiCards ("Q: ".data ++ x ++ "\n".data ++ ("A: ".data ++ y)) =
      [⟨x, y, none, none⟩] ∧
    parseAnkiCards (("Q: ".data ++ x ++ "\n".data ++ ("A: ".data ++ y)) ++ "\n\n".data ++
        ("Q: ".data ++ x2 ++ "\n".data ++ ("A: ".data ++ y2))) =
      [⟨x, y, none, none⟩, ⟨x2, y2, none, none⟩] := by
  obtain ⟨hx1, hx2', hx3⟩ := hx
  obtain ⟨hy1, hy2', hy3⟩ := hy
  obtain ⟨hu1, hu2, hu3⟩ := hx2
  obtain ⟨hv1, hv2, hv3⟩ := hy2
  constructor
  · rw [List.append_assoc]
    exact parse_single_qa hx1 hx2' hx3 hy1 hy2' hy3
  · have h := parse_two_qa hx1 hx2' hx3 hy1 hy2' hy3 hu1 hu2 hu3 hv1 hv2 hv3
    rw [show ("Q: ".data ++ x ++ "\n".data ++ ("A: ".data ++ y)) ++ "\n\n".data ++
        ("Q: ".data ++ x2 ++ "\n".data ++ ("A: ".data ++ y2)) =
        (("Q: ".data ++ x) ++ '\n' :: ("A: ".data ++ y)) ++
          '\n' :: '\n' :: (("Q: ".data ++ x2) ++ '\n' :: ("A: ".data ++ y2)) by
      simp [List.append_assoc]]
    exact h

/-- Claim C6 witness: the amended claim evaluated on two concrete blocks. -/
theorem C6_block_parse_w :
    parseAnkiCards ("Q: ".data ++ "x".data ++ "\n".data ++ ("A: ".data ++ "y".data)) =
      [⟨"x".data, "y".data, none, none⟩] ∧
    parseAnkiCards (("Q: ".data ++ "x".data ++ "\n".data ++ ("A: ".data ++ "y".data)) ++
        "\n\n".data ++ ("Q: ".data ++ "u".data ++ "\n".data ++ ("A: ".data ++ "v".data))) =
      [⟨"x".data, "y".data, none, none⟩, ⟨"u".data, "v".data, none, none⟩] :=
  C6_block_parse ("x".data) ("y".data) ("u".data) ("v".data)
    (by decide) (by decide) (by decide) (by decide)
    (by decide) (by decide) (by decide) (by decide)

theorem applyLine_tags_hash (c : AnkiCard) :
    applyLine c ("tags: #a #b".data) = { c with tags := some ["a".data, "b".data] } := rfl

theorem applyLine_tags_commas (c : AnkiCard) :
    applyLine c ("tags: a, b".data) = { c with tags := some ["a".data, "b".data] } := rfl

theorem blockCards_qa_tagline {x y tl : List Char} {ts : List (List Char)}
    (hx : trim x = x) (hxne : x ≠ []) (hxd : x.all isDot = true)
    (hy : trim y = y) (hyne : y ≠ []) (hyd : y.all isDot = true)
    (htnl : ∀ c ∈ tl, c ≠ '\n') (htr : trim tl = tl) (htne : tl ≠ [])
    (happ : ∀ c, applyLine c tl = { c with tags := some ts }) :
    blockCards (("Q: ".data ++ x) ++ '\n' :: (("A: ".data ++ y) ++ '\n' :: tl)) =
      [⟨x, y, none, some ts⟩] := by
  have hqnl : ∀ c ∈ "Q: ".data ++ x, c ≠ '\n' := nonl_concat (by decide) hxd
  have hanl : ∀ c ∈ "A: ".data ++ y, c ≠ '\n' := nonl_concat (by decide) hyd
  have hsplit : splitCh '\n' (("Q: ".data ++ x) ++ '\n' :: (("A: ".data ++ y) ++ '\n' :: tl)) =
      ["Q: ".data ++ x, "A: ".data ++ y, tl] := by
    rw [splitCh_append_sep hqnl, splitCh_append_sep hanl, splitCh_nosep htnl]
  have htq : trim ("Q: ".data ++ x) = "Q: ".data ++ x := by
    rw [show "Q: ".data ++ x = 'Q' :: ([':', ' '] ++ x) from rfl]
    exact trim_sandwich (by decide) hx hxne
  have hta : trim ("A: ".data ++ y) = "A: ".data ++ y := by
    rw [show "A: ".data ++ y = 'A' :: ([':', ' '] ++ y) from rfl]
    exact trim_sandwich (by decide) hy hyne
  simp only [blockCards]
  rw [hsplit]
  simp only [List.map_cons, List.map_nil, htq, hta, htr]
  rw [List.filter_cons_of_pos (by
        rw [show "Q: ".data ++ x = 'Q' :: ([':', ' '] ++ x) from rfl]
        simp),
      List.filter_cons_of_pos (by
        rw [show "A: ".data ++ y = 'A' :: ([':', ' '] ++ y) from rfl]
        simp),
      List.filter_cons_of_pos (by simpa using htne), List.filter_nil]
  simp only [List.foldl_cons, List.foldl_nil]
  rw [show "Q: ".data ++ x = 'Q' :: ':' :: ' ' :: x from rfl, applyLine_q, trim_space hx,
    show "A: ".data ++ y = 'A' :: ':' :: ' ' :: y from rfl, applyLine_a, trim_space hy, happ]
  rw [if_pos ⟨hxne, hyne⟩]

theorem parse_qa_tagline {x y tl : List Char} {ts : List (List Char)}
    (hx : trim x = x) (hxne : x ≠ []) (hxd : x.all isDot = true)
    (hy : trim y = y) (hyne : y ≠ []) (hyd : y.all isDot = true)
    (htnl : ∀ c ∈ tl, c ≠ '\n') (htr : trim tl = tl) (htne : tl ≠ [])
    (hns : nlSep tl = none)
    (happ : ∀ c, applyLine c tl = { c with tags := some ts }) :
    parseAnkiCards (("Q: ".data ++ x) ++ '\n' :: (("A: ".data ++ y) ++ '\n' :: tl)) =
      [⟨x, y, none, some ts⟩] := by
  have hynl : ∀ c ∈ "A: ".data ++ y, c ≠ '\n' := nonl_concat (by decide) hyd
  have hxnl : ∀ c ∈ "Q: ".data ++ x, c ≠ '\n' := nonl_concat (by decide) hxd
  have hml : multiLineTest
      (("Q: ".data ++ x) ++ '\n' :: (("A: ".data ++ y) ++ '\n' :: tl)) = true := by
    have h := (multiLineTest_qa_gen (Or.inl rfl) (Or.inl rfl) hxd :
      multiLineTest (('Q' :: ':' :: ' ' :: x) ++ '\n' ::
        ('A' :: ':' :: ' ' :: (y ++ '\n' :: tl))) = true)
    simpa [List.append_assoc] using h
  have h1 : blockSplitGo 0 ('\n' :: tl) = ['\n' :: tl] :=
    blockSplit_nl_none hns (blockSplit_nonl htnl)
  have h2 : blockSplitGo 0 (("A: ".data ++ y) ++ '\n' :: tl) =
      [("A: ".data ++ y) ++ '\n' :: tl] := blockSplit_append_nonl hynl h1
  have h3 : nlSep (("A: ".data ++ y) ++ '\n' :: tl) = none := by
    rw [show ("A: ".data ++ y) ++ '\n' :: tl = 'A' :: ((':' :: ' ' :: y) ++ '\n' :: tl) from rfl]
    exact nlSep_nonws (by decide)
  have h4 : blockSplitGo 0 ('\n' :: (("A: ".data ++ y) ++ '\n' :: tl)) =
      ['\n' :: (("A: ".data ++ y) ++ '\n' :: tl)] := blockSplit_nl_none h3 h2
  have h5 : blockSplitGo 0 (("Q: ".data ++ x) ++ '\n' :: (("A: ".data ++ y) ++ '\n' :: tl)) =
      [("Q: ".data ++ x) ++ '\n' :: (("A: ".data ++ y) ++ '\n' :: tl)] :=
    blockSplit_append_nonl hxnl h4
  unfold parseAnkiCards
  rw [hml]
  simp only [if_true]
  unfold parseMultiLine blockSplit
  rw [h5]
  have htt : trim (("Q: ".data ++ x) ++ '\n' :: (("A: ".data ++ y) ++ '\n' :: tl)) ≠ [] := by
    rw [show ("Q: ".data ++ x) ++ '\n' :: (("A: ".data ++ y) ++ '\n' :: tl) =
        'Q' :: ((((([':', ' '] ++ x) ++ ['\n']) ++ ("A: ".data ++ y)) ++ ['\n']) ++ tl) by
      simp [List.append_assoc]]
    exact trim_qa_block_ne (by decide) htr htne
  rw [List.filter_cons_of_pos (by simpa using htt), List.filter_nil]
  simp only [List.foldl_cons, List.foldl_nil, List.nil_append]
  exact blockCards_qa_tagline hx hxne hxd hy hyne hyd htnl htr htne happ

/-- Claim C9: in a multi-line block with valid question and answer lines, the
tag lines `tags: #a #b` and `tags: a, b` produce the same tag sequence
`["a", "b"]` on the emitted card: hash-delimited and comma/whitespace-delimited
tag styles are equivalent in this branch. -/
theorem C9_tag_styles (q a : List Char)
    (hq : trim q = q ∧ q ≠ [] ∧ q.all isDot = true)
    (ha : trim a = a ∧ a ≠ [] ∧ a.all isDot = true) :
    parseAnkiCards (("Q: ".data ++ q) ++ "\n".data ++
        (("A: ".data ++ a) ++ "\n".data ++ "tags: #a #b".data)) =
      [⟨q, a, none, some ["a".data, "b".data]⟩] ∧
    parseAnkiCards (("Q: ".data ++ q) ++ "\n".data ++
        (("A: ".data ++ a) ++ "\n".data ++ "tags: a, b".data)) =
      [⟨q, a, none, some ["a".data, "b".data]⟩] := by
  obtain ⟨hq1, hq2, hq3⟩ := hq
  obtain ⟨ha1, ha2, ha3⟩ := ha
  constructor
  · rw [show ("Q: ".data ++ q) ++ "\n".data ++
        (("A: ".data ++ a) ++ "\n".data ++ "tags: #a #b".data) =
        ("Q: ".data ++ q) ++ '\n' :: (("A: ".data ++ a) ++ '\n' :: "tags: #a #b".data) by
      simp [List.append_assoc]]
    exact parse_qa_tagline hq1 hq2 hq3 ha1 ha2 ha3 (by decide) (by decide) (by decide)
      (by decide) applyLine_tags_hash
  · rw [show ("Q: ".data ++ q) ++ "\n".data ++
        (("A: ".data ++ a) ++ "\n".data ++ "tags: a, b".data) =
        ("Q: ".data ++ q) ++ '\n' :: (("A: ".data ++ a) ++ '\n' :: "tags: a, b".data) by
      simp [List.append_assoc]]
    exact parse_qa_tagline hq1 hq2 hq3 ha1 ha2 ha3 (by decide) (by decide) (by decide)
      (by decide) applyLine_tags_commas

/-- Claim C9 witness: both tag styles on a concrete block. -/
theorem C9_tag_styles_w :
    parseAnkiCards (("Q: ".data ++ "q1".data) ++ "\n".data ++
        (("A: ".data ++ "ans".data) ++ "\n".data ++ "tags: #a #b".data)) =
      [⟨"q1".data, "ans".data, none, some ["a".data, "b".data]⟩] ∧
    parseAnkiCards (("Q: ".data ++ "q1".data) ++ "\n".data ++
        (("A: ".data ++ "ans".data) ++ "\n".data ++ "tags: a, b".data)) =
      [⟨"q1".data, "ans".data, none, some ["a".data, "b".data]⟩] :=
  C9_tag_styles ("q1".data) ("ans".data) (by decide) (by decide)

/-- Claim C10: each block of the multi-line branch contributes at most one
card, and when a block contains several lines with the same marker the text of
the last such line wins: `Q: x1`, `Q: x2`, `A: y` parses to the single card
⟨x2, y⟩. -/
theorem C10_last_wins :
    (∀ b : List Char, (blockCards b).length ≤ 1) ∧
    ∀ x1 x2 y : List Char, (trim x1 = x1 ∧ x1 ≠ [] ∧ x1.all isDot = true) →
      (trim x2 = x2 ∧ x2 ≠ [] ∧ x2.all isDot = true) →
      (trim y = y ∧ y ≠ [] ∧ y.all isDot = true) →
      parseAnkiCards (("Q: ".data ++ x1) ++ "\n".data ++
          (("Q: ".data ++ x2) ++ "\n".data ++ ("A: ".data ++ y))) =
        [⟨x2, y, none, none⟩] := by
  constructor
  · intro b
    simp only [blockCards]
    split <;> simp
  · intro x1 x2 y hx1 hx2 hy
    obtain ⟨ha1, ha2, ha3⟩ := hx1
    obtain ⟨hb1, hb2, hb3⟩ := hx2
    obtain ⟨hc1, hc2, hc3⟩ := hy
    rw [show ("Q: ".data ++ x1) ++ "\n".data ++
        (("Q: ".data ++ x2) ++ "\n".data ++ ("A: ".data ++ y)) =
        ("Q: ".data ++ x1) ++ '\n' :: (("Q: ".data ++ x2) ++ '\n' :: ("A: ".data ++ y)) by
      simp [List.append_assoc]]
    have hx1nl : ∀ c ∈ "Q: ".data ++ x1, c ≠ '\n' := nonl_concat (by decide) ha3
    have hx2nl : ∀ c ∈ "Q: ".data ++ x2, c ≠ '\n' := nonl_concat (by decide) hb3
    have hynl : ∀ c ∈ "A: ".data ++ y, c ≠ '\n' := nonl_concat (by decide) hc3
    have hml : multiLineTest (("Q: ".data ++ x1) ++ '\n' ::
        (("Q: ".data ++ x2) ++ '\n' :: ("A: ".data ++ y))) = true := by
      refine (multiLineTest_iff _).mpr
        ⟨("Q: ".data ++ x1) ++ ['\n'], ' ' :: x2, ' ' :: y, 'Q', 'A',
          Or.inl rfl, Or.inl rfl, ?_, ?_⟩
      · simp only [List.all_cons, Bool.and_eq_true, hb3, and_true]
        decide
      · simp [show "Q: ".data = ['Q', ':', ' '] from rfl,
          show "A: ".data = ['A', ':', ' '] from rfl, List.append_assoc]
    have hinner : blockSplitGo 0 (("Q: ".data ++ x2) ++ '\n' :: ("A: ".data ++ y)) =
        [("Q: ".data ++ x2) ++ '\n' :: ("A: ".data ++ y)] := blockSplit_single hb3 hc3
    have hnone : nlSep (("Q: ".data ++ x2) ++ '\n' :: ("A: ".data ++ y)) = none := by
      rw [show ("Q: ".data ++ x2) ++ '\n' :: ("A: ".data ++ y) =
          'Q' :: ((':' :: ' ' :: x2) ++ '\n' :: ("A: ".data ++ y)) from rfl]
      exact nlSep_nonws (by decide)
    have h5 := blockSplit_append_nonl hx1nl (blockSplit_nl_none hnone hinner)
    unfold parseAnkiCards
    rw [hml]
    simp only [if_true]
    unfold parseMultiLine blockSplit
    rw [h5]
    have htt : trim (("Q: ".data ++ x1) ++ '\n' ::
        (("Q: ".data ++ x2) ++ '\n' :: ("A: ".data ++ y))) ≠ [] := by
      rw [show ("Q: ".data ++ x1) ++ '\n' :: (("Q: ".data ++ x2) ++ '\n' :: ("A: ".data ++ y)) =
          'Q' :: ((((([':', ' '] ++ x1) ++ ['\n']) ++ ("Q: ".data ++ x2)) ++ ['\n'] ++
            "A: ".data) ++ y) by simp [List.append_assoc]]
      exact trim_qa_block_ne (by decide) hc1 hc2
    rw [List.filter_cons_of_pos (by simpa using htt), List.filter_nil]
    simp only [List.foldl_cons, List.foldl_nil, List.nil_append]
    have hsplit : splitCh '\n' (("Q: ".data ++ x1) ++ '\n' ::
        (("Q: ".data ++ x2) ++ '\n' :: ("A: ".data ++ y))) =
        ["Q: ".data ++ x1, "Q: ".data ++ x2, "A: ".data ++ y] := by
      rw [splitCh_append_sep hx1nl, splitCh_append_sep hx2nl, splitCh_nosep hynl]
    have htq1 : trim ("Q: ".data ++ x1) = "Q: ".data ++ x1 := by
      rw [show "Q: ".data ++ x1 = 'Q' :: ([':', ' '] ++ x1) from rfl]
      exact trim_sandwich (by decide) ha1 ha2
    have htq2 : trim ("Q: ".data ++ x2) = "Q: ".data ++ x2 := by
      rw [show "Q: ".data ++ x2 = 'Q' :: ([':', ' '] ++ x2) from rfl]
      exact trim_sandwich (by decide) hb1 hb2
    have hta : trim ("A: ".data ++ y) = "A: ".data ++ y := by
      rw [show "A: ".data ++ y = 'A' :: ([':', ' '] ++ y) from rfl]
      exact trim_sandwich (by decide) hc1 hc2
    simp only [blockCards]
    rw [hsplit]
    simp only [List.map_cons, List.map_nil, htq1, htq2, hta]
    rw [List.filter_cons_of_pos (by
          rw [show "Q: ".data ++ x1 = 'Q' :: ([':', ' '] ++ x1) from rfl]
          simp),
        List.filter_cons_of_pos (by
          rw [show "Q: ".data ++ x2 = 'Q' :: ([':', ' '] ++ x2) from rfl]
          simp),
        List.filter_cons_of_pos (by
          rw [show "A: ".data ++ y = 'A' :: ([':', ' '] ++ y) from rfl]
          simp),
        List.filter_nil]
    simp only [List.foldl_cons, List.foldl_nil]
    rw [show "Q: ".data ++ x1 = 'Q' :: ':' :: ' ' :: x1 from rfl, applyLine_q, trim_space ha1,
      show "Q: ".data ++ x2 = 'Q' :: ':' :: ' ' :: x2 from rfl, applyLine_q, trim_space hb1,
      show "A: ".data ++ y = 'A' :: ':' :: ' ' :: y from rfl, applyLine_a, trim_space hc1]
    rw [if_pos ⟨hb2, hc2⟩]

/-- Claim C10 witness: the per-block bound and the last-wins behaviour on a
concrete block. -/
theorem C10_last_wins_w :
    (blockCards ("Q: a\nA: b".data)).length ≤ 1 ∧
    parseAnkiCards (("Q: ".data ++ "x1".data) ++ "\n".data ++
        (("Q: ".data ++ "x2".data) ++ "\n".data ++ ("A: ".data ++ "y".data))) =
      [⟨"x2".data, "y".data, none, none⟩] :=
  ⟨C10_last_wins.1 ("Q: a\nA: b".data),
    C10_last_wins.2 ("x1".data) ("x2".data) ("y".data) (by decide) (by decide) (by decide)⟩

/-! ### Field-mapping toolkit -/

theorem two_mem_two_le {α : Type} {a b : α} {l : List α} (ha : a ∈ l) (hb : b ∈ l)
    (hne : a ≠ b) : 2 ≤ l.length := by
  induction l with
  | nil => simp at ha
  | cons c t ih =>
    rcases List.mem_cons.mp ha with rfl | ha'
    · rcases List.mem_cons.mp hb with rfl | hb'
      · exact absurd rfl hne
      · have := List.length_pos.mpr (List.ne_nil_of_mem hb')
        simp only [List.length_cons]
        omega
    · have := List.length_pos.mpr (List.ne_nil_of_mem ha')
      simp only [List.length_cons]
      omega

theorem contains_imp_mem {a : List Char} {l : List (List Char)}
    (h : l.contains a = true) : a ∈ l := by
  simpa using h

theorem not_contains_pair {names : List (List Char)} (h : names.length < 2)
    (s t : List Char) (hst : s ≠ t) :
    ¬ ((names.contains s && names.contains t) = true) := by
  intro hcond
  rw [Bool.and_eq_true] at hcond
  have := two_mem_two_le (contains_imp_mem hcond.1) (contains_imp_mem hcond.2) hst
  omega

theorem computedFields_none_iff (card : AnkiCard) (names : List (List Char)) :
    computedFields card names = none ↔ names.length < 2 := by
  constructor
  · intro h
    rcases names with - | ⟨n0, - | ⟨n1, rest⟩⟩
    · simp
    · simp
    · exfalso
      unfold computedFields at h
      split_ifs at h
      have h' : (if n0 = n1 then some [(n0, answerSide card)]
          else some [(n0, card.question), (n1, answerSide card)]) =
          (none : Option (List (List Char × List Char))) := h
      split_ifs at h'
  · intro h
    unfold computedFields
    rw [if_neg (not_contains_pair h ("Front".data) ("Back".data) (by decide)),
      if_neg (not_contains_pair h ("正面".data) ("背面".data) (by decide)),
      if_neg (not_contains_pair h ("Text".data) ("Extra".data) (by decide))]
    match names, h with
    | [], _ => rfl
    | [n], _ => rfl

theorem firstEmptyField_some {fs : List (List Char × List Char)} {k : List Char}
    (h : firstEmptyField fs = some k) : ∃ v, (k, v) ∈ fs ∧ trim v = [] := by
  induction fs with
  | nil => simp [firstEmptyField] at h
  | cons kv rest ih =>
    obtain ⟨k', v'⟩ := kv
    simp only [firstEmptyField] at h
    split_ifs at h with hc
    · obtain rfl : k' = k := by simpa using h
      refine ⟨v', by simp, ?_⟩
      rcases hc with rfl | hc
      · rfl
      · exact hc
    · obtain ⟨v, hv, ht⟩ := ih h
      exact ⟨v, by simp [hv], ht⟩

theorem firstEmptyField_of_mem {fs : List (List Char × List Char)} {k v : List Char}
    (hm : (k, v) ∈ fs) (ht : trim v = []) : firstEmptyField fs ≠ none := by
  induction fs with
  | nil => simp at hm
  | cons kv rest ih =>
    obtain ⟨k', v'⟩ := kv
    simp only [firstEmptyField]
    split_ifs with hc
    · simp
    · rcases List.mem_cons.mp hm with h | h
      · obtain ⟨rfl, rfl⟩ : k' = k ∧ v' = v := by simpa [eq_comm] using h
        exact absurd (Or.inr ht) hc
      · exact ih h

/-- Claim C4: `mapFields` fails exactly when the schema declares fewer than two
field names (then no template matches either), or when some value of the
computed mapping is empty after trimming; in the latter case the error names an
offending field of the computed mapping, and in both cases no mapping is
produced. -/
theorem C4_mapFields_error_iff :
    (∀ (card : AnkiCard) (names : List (List Char)),
      (∃ e, mapFields card names = .error e) ↔
        (names.length < 2 ∨ ∃ fs, computedFields card names = some fs ∧
          ∃ k v, (k, v) ∈ fs ∧ trim v = [])) ∧
    (∀ (card : AnkiCard) (names : List (List Char)) (k : List Char),
      mapFields card names = .error (.emptyField k) →
        ∃ fs v, computedFields card names = some fs ∧ (k, v) ∈ fs ∧ trim v = []) := by
  constructor
  · intro card names
    cases hcf : computedFields card names with
    | none =>
      have hm : mapFields card names = .error .cannotDetermine := by
        simp only [mapFields, hcf]
      constructor
      · intro _
        exact Or.inl ((computedFields_none_iff card names).mp hcf)
      · intro _
        exact ⟨.cannotDetermine, hm⟩
    | some fs =>
      cases hfe : firstEmptyField fs with
      | some k =>
        have hm : mapFields card names = .error (.emptyField k) := by
          simp only [mapFields, hcf, hfe]
        constructor
        · intro _
          exact Or.inr ⟨fs, rfl, k, firstEmptyField_some hfe⟩
        · intro _
          exact ⟨.emptyField k, hm⟩
      | none =>
        have hm : mapFields card names = .ok fs := by
          simp only [mapFields, hcf, hfe]
        constructor
        · rintro ⟨e, he⟩
          rw [hm] at he
          cases he
        · rintro (hlen | ⟨fs', hfs', k, v, hmem, ht⟩)
          · rw [(computedFields_none_iff card names).mpr hlen] at hcf
            exact Option.noConfusion hcf
          · obtain rfl : fs = fs' := by simpa using hfs'
            exact absurd hfe (firstEmptyField_of_mem hmem ht)
  · intro card names k h
    cases hcf : computedFields card names with
    | none =>
      have hm : mapFields card names = .error .cannotDetermine := by
        simp only [mapFields, hcf]
      rw [hm] at h
      simp at h
    | some fs =>
      cases hfe : firstEmptyField fs with
      | none =>
        have hm : mapFields card names = .ok fs := by
          simp only [mapFields, hcf, hfe]
        rw [hm] at h
        cases h
      | some k2 =>
        have hm : mapFields card names = .error (.emptyField k2) := by
          simp only [mapFields, hcf, hfe]
        rw [hm] at h
        have hk : k2 = k := by simpa using h
        subst hk
        obtain ⟨v, hmem, ht⟩ := firstEmptyField_some hfe
        exact ⟨fs, v, rfl, hmem, ht⟩

/-- Claim C4 witness: a one-field schema fails, and with a two-field schema an
empty question yields an empty-valued field of the computed mapping. -/
theorem C4_mapFields_error_iff_w :
    (∃ e, mapFields ⟨"Q".data, "A".data, none, none⟩ ["f1".data] = .error e) ∧
    (∃ fs v, computedFields ⟨[], "A".data, none, none⟩ ["f1".data, "f2".data] = some fs ∧
      ("f1".data, v) ∈ fs ∧ trim v = []) :=
  ⟨(C4_mapFields_error_iff.1 ⟨"Q".data, "A".data, none, none⟩ ["f1".data]).mpr
      (Or.inl (by decide)),
    C4_mapFields_error_iff.2 ⟨[], "A".data, none, none⟩ ["f1".data, "f2".data]
      ("f1".data) (by rfl)⟩

/-- Claim C5 (amended): for every card whose question and answer-side values are
non-empty after trimming, and every schema containing both `Front` and `Back`,
`mapFields` returns exactly `{Front: question, Back: answerWithAnnotation}`,
where the answer side is the answer unchanged when the annotation is absent or
empty, and otherwise the answer followed by the fixed separator and the styled
annotation; cards failing the non-emptiness validation raise `MappingError`
instead. -/
theorem C5_front_back (card : AnkiCard) (names : List (List Char))
    (hf : names.contains "Front".data = true) (hb : names.contains "Back".data = true)
    (hq : trim card.question ≠ []) (ha : trim (answerSide card) ≠ []) :
    mapFields card names =
      .ok [("Front".data, card.question), ("Back".data, answerSide card)] ∧
    (card.annot = none ∨ card.annot = some [] → answerSide card = card.answer) ∧
    (∀ ann, card.annot = some ann → ann ≠ [] →
      answerSide card = card.answer ++ annotStyled ann) := by
  refine ⟨?_, ?_, ?_⟩
  · unfold mapFields
    have hcf : computedFields card names =
        some [("Front".data, card.question), ("Back".data, answerSide card)] := by
      unfold computedFields
      rw [if_pos (by rw [Bool.and_eq_true]; exact ⟨hf, hb⟩)]
    rw [hcf]
    have hq' : ¬ (card.question = [] ∨ trim card.question = []) := by
      rintro (h | h)
      · exact hq (by rw [h]; rfl)
      · exact hq h
    have ha' : ¬ (answerSide card = [] ∨ trim (answerSide card) = []) := by
      rintro (h | h)
      · exact ha (by rw [h]; rfl)
      · exact ha h
    simp only [firstEmptyField, if_neg hq', if_neg ha']
  · intro h
    rcases h with h | h <;> simp [answerSide, h]
  · intro ann h hne
    simp [answerSide, h, hne]

/-- Claim C5 witness: the concrete instance of the amended claim. -/
theorem C5_front_back_w :
    (trim ((⟨"Q".data, "A".data, none, none⟩ : AnkiCard).question) ≠ [] ∧
      trim (answerSide ⟨"Q".data, "A".data, none, none⟩) ≠ []) ∧
    mapFields ⟨"Q".data, "A".data, none, none⟩ ["Front".data, "Back".data] =
      .ok [("Front".data, (⟨"Q".data, "A".data, none, none⟩ : AnkiCard).question),
        ("Back".data, answerSide ⟨"Q".data, "A".data, none, none⟩)] :=
  ⟨⟨by decide, by decide⟩,
    (C5_front_back ⟨"Q".data, "A".data, none, none⟩ ["Front".data, "Back".data]
      (by decide) (by decide) (by decide) (by decide)).1⟩

/-- Claim C8: the two-line table `Q\tA\tannotation\ttags` header with data row
`foo\tbar\tnote\t#x #y` parses to exactly one card with question `foo`, answer
`bar`, annotation `note` and tags `x`, `y`. -/
theorem C8_table_example :
    parseAnkiCards ("Q\tA\tannotation\ttags\nfoo\tbar\tnote\t#x #y".data) =
      [⟨"foo".data, "bar".data, some ("note".data), some ["x".data, "y".data]⟩] := by
  decide

/-- Claim C1 counterexample: on input `Q: A:` the fallback branch emits a card
whose question and answer are both empty, refuting the claim that every card in
the output of `parse` has a non-empty question and answer in all three branches. -/
theorem C1_cex :
    ¬ (∀ c ∈ parseAnkiCards ("Q: A:".data), c.question ≠ [] ∧ c.answer ≠ []) := by
  decide

/-- Claim C2 counterexample: the block `q: x` / `a: y` selects the multi-line
branch but yields no card at all, while `Q: x` / `A: y` yields one card, so
lowercase markers do not produce the same card as uppercase ones. -/
theorem C2_cex :
    parseAnkiCards ("q: x\na: y".data) = [] ∧
    parseAnkiCards ("q: x\na: y".data) ≠ parseAnkiCards ("Q: x\nA: y".data) := by
  decide

/-- Claim C3 counterexample: the text `Q: x`, `annotation: n`, `A: y` (an
`annotation:` line intervening between the `Q:` line and the `A:` line) does
not select the multi-line branch — the detection regex requires the `A:` line
to follow the `Q:` line immediately — and in fact parses to no cards. -/
theorem C3_cex :
    multiLineTest ("Q: x\nannotation: n\nA: y".data) = false ∧
    parseAnkiCards ("Q: x\nannotation: n\nA: y".data) = [] := by
  decide

/-- Claim C5 counterexample: for a card with an empty question, `mapFields`
with a `Front`/`Back` schema raises `MappingError` naming `Front` instead of
returning the mapping, refuting the claim for arbitrary cards. -/
theorem C5_cex :
    mapFields ⟨[], "A".data, none, none⟩ ["Front".data, "Back".data] =
      .error (.emptyField "Front".data) ∧
    mapFields ⟨[], "A".data, none, none⟩ ["Front".data, "Back".data] ≠
      .ok [("Front".data, []), ("Back".data, "A".data)] := by
  decide

/-- Claim C6 counterexample: with `x = "x "` (non-empty, single-line, free of
field markers) and `y = "y"`, parsing the block `Q: x \nA: y` yields the card
with question `"x"`, not `"x "` — the parser trims each field — refuting the
claimed exact equality. -/
theorem C6_cex :
    ("x ".data ≠ [] ∧ List.all ("x ".data) isDot = true ∧
      hasSeqCI ("q:".data) ("x ".data) = false ∧ hasSeqCI ("a:".data) ("x ".data) = false ∧
      hasSeqCI ("annotation:".data) ("x ".data) = false ∧
      hasSeqCI ("tags:".data) ("x ".data) = false) ∧
    parseAnkiCards ("Q: x \nA: y".data) ≠ [⟨"x ".data, "y".data, none, none⟩] := by
  decide

end Ankify
